import Mathlib

/-!
Shallow embedding of the result-aggregation and rendering core of the
`lhci-slack-reporter` action, together with proofs about it.

Sources embedded here:
* `src/lighthouse.ts` — `averageLighthouseResults` (the per-(url, device)
  score aggregator);
* `src/utils.ts` — `calculateAverageScores`, `calculateScoresByDevice`,
  `calculateScoresByUrl`, `calculateMinScores`, `calculateMaxScores`,
  `formatLighthouseResults`;
* `src/slack.ts` — category ordering, `formatScoreRow` cell formatting,
  the message-size truncation loop and the device-gap insight loop of
  `createSlackBlocks`.

Modelling conventions: JavaScript numbers carrying Lighthouse scores are
modelled as rationals (`ℚ`); JavaScript `Record`s built by insertion are
modelled as association lists in insertion order (new keys appended at the
end), matching `Object.entries` iteration order; `Array.prototype.sort`,
which is stable and is called with consistent comparators only, is modelled
by Mathlib's stable `List.insertionSort`; a `throw` is modelled with
`Except`.
-/

namespace LHCI

/-- One Lighthouse category entry `{id, title, score}` of a run
(interface `LighthouseCategory` in `src/utils.ts`). -/
structure LighthouseCategory where
  id : String
  title : String
  score : ℚ
deriving DecidableEq, Repr, Inhabited

/-- One Lighthouse run result `{url, deviceType, categories, reportUrl?}`
(interface `LighthouseResult` in `src/utils.ts`). -/
structure LighthouseResult where
  url : String
  deviceType : String
  categories : List LighthouseCategory
  reportUrl : Option String := none
deriving DecidableEq, Repr, Inhabited

/-- `Math.round` of JavaScript: rounds half away from zero upward, i.e.
`Math.round(x) = ⌊x + 1/2⌋`. -/
def jsRound (q : ℚ) : ℤ := ⌊q + 1 / 2⌋

/-- Numeric ascending sort `scores.sort((a, b) => a - b)` from
`averageLighthouseResults` in `src/lighthouse.ts`. -/
def jsSortNum (l : List ℚ) : List ℚ := List.insertionSort (· ≤ ·) l

/-- The median expression of `averageLighthouseResults` in
`src/lighthouse.ts`: after the ascending sort, for even length the average
of `sorted[n/2 - 1]` and `sorted[n/2]`, for odd length `sorted[⌊n/2⌋]`.
Out-of-range indexing (possible only on `[]`, which the caller never
produces) is given the default `0`. -/
def medianOf (scores : List ℚ) : ℚ :=
  let sorted := jsSortNum scores
  if sorted.length % 2 = 0 then
    (sorted.getD (sorted.length / 2 - 1) 0 + sorted.getD (sorted.length / 2) 0) / 2
  else
    sorted.getD (sorted.length / 2) 0

/-- The specification's median: sort ascending; for odd count the single
middle value, for even count the average of the two middle values. Stated
from the spec's words, to be compared with the code's `medianOf`. -/
def medianSpec (scores : List ℚ) : ℚ :=
  let sorted := List.insertionSort (· ≤ ·) scores
  if sorted.length % 2 = 1 then
    sorted.getD (sorted.length / 2) 0
  else
    (sorted.getD (sorted.length / 2 - 1) 0 + sorted.getD (sorted.length / 2) 0) / 2

/-- `categoryScores[id].push(score)`, creating the key on first use: in an
insertion-ordered record, append `s` to the entry of `id`, or append a new
entry `(id, [s])` at the end. -/
def addScore : List (String × List ℚ) → String → ℚ → List (String × List ℚ)
  | [], id, s => [(id, [s])]
  | (k, v) :: rest, id, s =>
      if k = id then (k, v ++ [s]) :: rest else (k, v) :: addScore rest id s

/-- The inner `result.categories.forEach` of the collection loop in
`averageLighthouseResults`. -/
def collectRun (m : List (String × List ℚ)) (cats : List LighthouseCategory) :
    List (String × List ℚ) :=
  cats.foldl (fun m c => addScore m c.id c.score) m

/-- The `results.forEach` collection loop of `averageLighthouseResults`:
builds `categoryScores : Record<string, number[]>`. -/
def collectScores (results : List LighthouseResult) : List (String × List ℚ) :=
  results.foldl (fun m r => collectRun m r.categories) []

/-- Value of key `id` in an insertion-ordered record of score lists
(`[]` when absent). -/
def scoresOf : List (String × List ℚ) → String → List ℚ
  | [], _ => []
  | (k, v) :: rest, id => if k = id then v else scoresOf rest id

/-- All scores recorded under category `id` across a list of runs, in run
order: the multiset the spec says the median is taken over. -/
def allScoresFor (id : String) : List LighthouseResult → List ℚ
  | [] => []
  | r :: rest =>
      (r.categories.filter (fun c => c.id = id)).map (fun c => c.score)
        ++ allScoresFor id rest

/-- The `for (const [id, scores] of Object.entries(categoryScores))` loop of
`averageLighthouseResults`: one averaged category per collected id, kept
only when the id is present in the first run (title taken from there). -/
def averagedCategories (first : LighthouseResult) (results : List LighthouseResult) :
    List LighthouseCategory :=
  (collectScores results).filterMap (fun p =>
    match first.categories.find? (fun c => c.id = p.1) with
    | some fc => some { id := p.1, title := fc.title, score := medianOf p.2 }
    | none => none)

/-- `averageLighthouseResults` from `src/lighthouse.ts`: throws on zero
runs, passes a single run through unchanged, otherwise medians each
category id present in the first run; `url`, `deviceType` and `reportUrl`
come from the first run. -/
def averageLighthouseResults : List LighthouseResult → Except String LighthouseResult
  | [] => .error "No results to average"
  | [r] => .ok r
  | r :: rest =>
      .ok { url := r.url
            deviceType := r.deviceType
            categories := averagedCategories r (r :: rest)
            reportUrl := r.reportUrl }

/-! ### Summary builder (`src/utils.ts`) -/

/-- `scores.reduce((a, b) => a + b, 0)`. -/
def qSum (l : List ℚ) : ℚ := l.foldl (· + ·) 0

/-- `Math.round(x * 100) / 100`: rounding to two decimal places as done in
`calculateAverageScores`. -/
def roundTwoDecimals (q : ℚ) : ℚ := (jsRound (q * 100) : ℚ) / 100

/-- `calculateAverageScores` from `src/utils.ts`: collect scores per
category id, then map each entry to the two-decimal-rounded mean. -/
def calculateAverageScores (results : List LighthouseResult) : List (String × ℚ) :=
  (collectScores results).map (fun p => (p.1, roundTwoDecimals (qSum p.2 / p.2.length)))

/-- `[...new Set(xs)]`: deduplication preserving first-occurrence order. -/
def jsSetDedup (l : List String) : List String :=
  l.foldl (fun acc x => if x ∈ acc then acc else acc ++ [x]) []

/-- `calculateScoresByDevice` from `src/utils.ts`. -/
def calculateScoresByDevice (results : List LighthouseResult) :
    List (String × List (String × ℚ)) :=
  (jsSetDedup (results.map (·.deviceType))).map (fun d =>
    (d, calculateAverageScores (results.filter (fun r => r.deviceType = d))))

/-- `calculateScoresByUrl` from `src/utils.ts`. -/
def calculateScoresByUrl (results : List LighthouseResult) :
    List (String × List (String × ℚ)) :=
  (jsSetDedup (results.map (·.url))).map (fun u =>
    (u, calculateAverageScores (results.filter (fun r => r.url = u))))

/-- `Math.min(...scores)` on the nonempty score lists produced by the
collection loop (`0` for the unreachable empty case). -/
def jsMathMin : List ℚ → ℚ
  | [] => 0
  | x :: xs => xs.foldl min x

/-- `Math.max(...scores)` on the nonempty score lists produced by the
collection loop (`0` for the unreachable empty case). -/
def jsMathMax : List ℚ → ℚ
  | [] => 0
  | x :: xs => xs.foldl max x

/-- `calculateMinScores` from `src/utils.ts`. -/
def calculateMinScores (results : List LighthouseResult) : List (String × ℚ) :=
  (collectScores results).map (fun p => (p.1, jsMathMin p.2))

/-- `calculateMaxScores` from `src/utils.ts`. -/
def calculateMaxScores (results : List LighthouseResult) : List (String × ℚ) :=
  (collectScores results).map (fun p => (p.1, jsMathMax p.2))

/-- The `summary` object of `FormattedLighthouseResults` in
`src/utils.ts`. -/
structure Summary where
  totalUrls : Nat
  totalTests : Nat
  averageScores : List (String × ℚ)
  scoresByDevice : List (String × List (String × ℚ))
  scoresByUrl : List (String × List (String × ℚ))
  minScores : List (String × ℚ)
  maxScores : List (String × ℚ)
deriving DecidableEq, Repr

/-- `FormattedLighthouseResults` from `src/utils.ts`. -/
structure FormattedLighthouseResults where
  results : List LighthouseResult
  summary : Summary
deriving DecidableEq, Repr

/-- `formatLighthouseResults` from `src/utils.ts`. -/
def formatLighthouseResults (results : List LighthouseResult) :
    FormattedLighthouseResults :=
  { results := results
    summary :=
      { totalUrls := (jsSetDedup (results.map (·.url))).length
        totalTests := results.length
        averageScores := calculateAverageScores results
        scoresByDevice := calculateScoresByDevice results
        scoresByUrl := calculateScoresByUrl results
        minScores := calculateMinScores results
        maxScores := calculateMaxScores results } }

/-! ### Renderer (`src/slack.ts`) -/

/-- Value of key `k` in an insertion-ordered record of scores. -/
def lookupQ : List (String × ℚ) → String → Option ℚ
  | [], _ => none
  | (k', v) :: rest, k => if k' = k then some v else lookupQ rest k

/-- `order.indexOf(c)` for the fixed array
`['performance', 'seo', 'accessibility', 'best-practices']` used by the
category comparator of `createSlackBlocks` (`-1` when absent). -/
def categoryOrderIndex (c : String) : ℤ :=
  if c = "performance" then 0
  else if c = "seo" then 1
  else if c = "accessibility" then 2
  else if c = "best-practices" then 3
  else -1

/-- The category sort of `createSlackBlocks`:
`Array.from(allCategories).sort((a, b) => order.indexOf(a) - order.indexOf(b))`.
JavaScript's sort is stable and the comparator is consistent, so it is the
stable sort by the key `categoryOrderIndex`, here Mathlib's stable
`List.insertionSort`. -/
def sortCategories (l : List String) : List String :=
  List.insertionSort (fun a b => categoryOrderIndex a ≤ categoryOrderIndex b) l

/-- `formatPercentage` from `src/slack.ts`: `Math.round(score * 100) + "%"`. -/
def formatPercentage (score : ℚ) : String := toString (jsRound (score * 100)) ++ "%"

/-- The per-category cell text of `formatScoreRow` in `src/slack.ts`:
`mobileScores[category] || 0` and `desktopScores[category] || 0` feed
`formatPercentage`; `"N/A"` appears only when neither device has tests.
(`x || 0` equals `getD 0`: a stored score of `0` is itself falsy and
yields `0` either way.) -/
def scoreCellText (mobileScores desktopScores : List (String × ℚ))
    (hasMobile hasDesktop : Bool) (category : String) : String :=
  let mobileScore := (lookupQ mobileScores category).getD 0
  let desktopScore := (lookupQ desktopScores category).getD 0
  if hasMobile && hasDesktop then
    formatPercentage mobileScore ++ "/" ++ formatPercentage desktopScore
  else if hasMobile then formatPercentage mobileScore
  else if hasDesktop then formatPercentage desktopScore
  else "N/A"

/-- `" ".repeat(n)`. -/
def spaces (n : Nat) : String := String.mk (List.replicate n ' ')

/-- One padded column of `formatScoreRow` (COLUMN_WIDTH = 13): the cell
text centered by left/right padding. -/
def paddedCell (text : String) : String :=
  let paddingSize := (13 - text.length) / 2
  spaces paddingSize ++ text ++ spaces (13 - text.length - paddingSize)

/-- `formatScoreRow` from `src/slack.ts`, scores columns only (the trailing
emoji summary column and URL line concern no claim): one `|`-separated
padded cell per category inside a code fence. -/
def formatScoreRow (categories : List String)
    (mobileScores desktopScores : List (String × ℚ))
    (hasMobile hasDesktop : Bool) : String :=
  if categories.length = 0 then "```| No data available |```"
  else
    categories.foldl
      (fun row category =>
        row ++ paddedCell (scoreCellText mobileScores desktopScores hasMobile hasDesktop category) ++ "|")
      "```|"

/-- A rendered display block of the Slack message (shape only: the claims
concern which blocks are emitted, not Slack's JSON schema). -/
inductive SlackBlock where
  | header (text : String)
  | section (text : String)
  | divider
  | context (text : String)
deriving DecidableEq, Repr

/-- `SLACK_MESSAGE_CHAR_LIMIT` from `createSlackBlocks`. -/
def SLACK_MESSAGE_CHAR_LIMIT : Nat := 3000

/-- The truncation-warning context block pushed by `createSlackBlocks` when
the size ceiling would be exceeded. -/
def truncationWarning : SlackBlock :=
  .context "⚠️ Some results were omitted due to Slack message size limitations"

/-- The per-URL row loop of `createSlackBlocks`: for each prepared row
block, compute its serialized size (`JSON.stringify([scoresBlock]).length`,
abstracted as `size`); if the running total would exceed
`SLACK_MESSAGE_CHAR_LIMIT`, push the single truncation warning and stop;
otherwise push the row and add its size to the running counter `current`
(which starts from the length of the already-emitted blocks). -/
def emitUrlRows (size : SlackBlock → Nat) (current : Nat) :
    List SlackBlock → List SlackBlock
  | [] => []
  | b :: rest =>
      if SLACK_MESSAGE_CHAR_LIMIT < current + size b then [truncationWarning]
      else b :: emitUrlRows size (current + size b) rest

/-- The device-gap scan of `createSlackBlocks`: fold over the mobile
average-score entries carrying `(biggestGapCategory, biggestGap,
mobileScore, desktopScore)`, where a category missing from the desktop
record contributes `desktopAvg = 0` (`scoresByDevice['desktop']?.[c] || 0`)
and the state is replaced exactly when `gap > biggestGap`. -/
def gapLoop (desktop : List (String × ℚ)) :
    List (String × ℚ) → String × ℚ × ℚ × ℚ → String × ℚ × ℚ × ℚ
  | [], acc => acc
  | p :: rest, acc =>
      let dAvg := (lookupQ desktop p.1).getD 0
      let gap := |p.2 - dAvg|
      gapLoop desktop rest (if acc.2.1 < gap then (p.1, gap, p.2, dAvg) else acc)

/-- `findBiggestGap`: the device-gap scan started from
`('', 0, 0, 0)`. -/
def findBiggestGap (mobile desktop : List (String × ℚ)) : String × ℚ × ℚ × ℚ :=
  gapLoop desktop mobile ("", 0, 0, 0)

/-- The device-gap bullet decision of `createSlackBlocks`: emitted data
`(category, gap, better device)` when `biggestGapCategory` is nonempty and
`biggestGap > 0.1`, otherwise nothing. -/
def gapInsight (mobile desktop : List (String × ℚ)) : Option (String × ℚ × String) :=
  let r := findBiggestGap mobile desktop
  if r.1 ≠ "" ∧ (1 / 10 : ℚ) < r.2.1 then
    some (r.1, r.2.1, if r.2.2.2 < r.2.2.1 then "Mobile" else "Desktop")
  else none

/-- The absolute mobile/desktop gaps the loop examines, in loop order: one
per entry of the mobile record, desktop value defaulted to `0`. -/
def deviceGaps (mobile desktop : List (String × ℚ)) : List ℚ :=
  mobile.map (fun p => |p.2 - (lookupQ desktop p.1).getD 0|)

/-- Category ids present in both the mobile and the desktop record — the
set the specification says the device-gap scan is restricted to. -/
def sharedCategoryIds (mobile desktop : List (String × ℚ)) : List String :=
  (mobile.map Prod.fst).filter (fun c => c ∈ desktop.map Prod.fst)

/-! ### Helper lemmas: the score-collection record -/

lemma scoresOf_addScore (m : List (String × List ℚ)) (id id' : String) (s : ℚ) :
    scoresOf (addScore m id s) id' = scoresOf m id' ++ (if id' = id then [s] else []) := by
  induction m with
  | nil =>
      by_cases h : id' = id
      · simp [addScore, scoresOf, h]
      · simp [addScore, scoresOf, h, Ne.symm h]
  | cons p rest ih =>
      obtain ⟨k, v⟩ := p
      by_cases hk : k = id
      · subst hk
        by_cases h' : id' = k
        · simp [addScore, scoresOf, h']
        · simp [addScore, scoresOf, h', Ne.symm h']
      · by_cases h' : k = id'
        · subst h'
          simp [addScore, scoresOf, hk, Ne.symm hk]
        · simp [addScore, scoresOf, hk, h', ih]

lemma keys_addScore (m : List (String × List ℚ)) (id : String) (s : ℚ) :
    (addScore m id s).map Prod.fst =
      if id ∈ m.map Prod.fst then m.map Prod.fst else m.map Prod.fst ++ [id] := by
  induction m with
  | nil => simp [addScore]
  | cons p rest ih =>
      obtain ⟨k, v⟩ := p
      by_cases hk : k = id
      · subst hk
        simp [addScore]
      · simp only [addScore, if_neg hk, List.map_cons, ih, List.mem_cons]
        by_cases hmem : id ∈ rest.map Prod.fst
        · simp [hmem, Ne.symm hk]
        · simp [hmem, Ne.symm hk]

lemma keys_nodup_addScore (m : List (String × List ℚ)) (id : String) (s : ℚ)
    (h : (m.map Prod.fst).Nodup) : ((addScore m id s).map Prod.fst).Nodup := by
  rw [keys_addScore]
  by_cases hmem : id ∈ m.map Prod.fst
  · simpa [hmem] using h
  · simp only [if_neg hmem]
    exact List.Nodup.append h (List.nodup_singleton id) (by simpa using hmem)

lemma values_nonempty_addScore (m : List (String × List ℚ)) (id : String) (s : ℚ)
    (h : ∀ p ∈ m, p.2 ≠ []) : ∀ p ∈ addScore m id s, p.2 ≠ [] := by
  induction m with
  | nil => simp [addScore]
  | cons q rest ih =>
      obtain ⟨k, v⟩ := q
      intro p hp
      by_cases hk : k = id
      · subst hk
        simp only [addScore, if_pos rfl] at hp
        rcases List.mem_cons.mp hp with hp' | hp'
        · rw [hp']
          simp
        · exact h p (List.mem_cons_of_mem _ hp')
      · simp only [addScore, if_neg hk] at hp
        rcases List.mem_cons.mp hp with hp' | hp'
        · rw [hp']
          exact h (k, v) (List.mem_cons_self _ _)
        · exact ih (fun q hq => h q (List.mem_cons_of_mem _ hq)) p hp'

lemma mem_keys_of_scoresOf_ne_nil (m : List (String × List ℚ)) (id : String)
    (h : scoresOf m id ≠ []) : id ∈ m.map Prod.fst := by
  induction m with
  | nil => simp [scoresOf] at h
  | cons p rest ih =>
      obtain ⟨k, v⟩ := p
      by_cases hk : k = id
      · simp [hk]
      · simp only [scoresOf, if_neg hk] at h
        simpa using Or.inr (ih h)

lemma scoresOf_ne_nil_of_mem_keys (m : List (String × List ℚ)) (id : String)
    (hv : ∀ p ∈ m, p.2 ≠ []) (h : id ∈ m.map Prod.fst) : scoresOf m id ≠ [] := by
  induction m with
  | nil => simp at h
  | cons p rest ih =>
      obtain ⟨k, v⟩ := p
      by_cases hk : k = id
      · simpa [scoresOf, hk] using hv (k, v) (List.mem_cons_self _ _)
      · simp only [List.map_cons, List.mem_cons] at h
        rcases h with h | h
        · exact absurd h.symm hk
        · simpa [scoresOf, hk] using ih (fun q hq => hv q (List.mem_cons_of_mem _ hq)) h

lemma scoresOf_entry (m : List (String × List ℚ)) (hnd : (m.map Prod.fst).Nodup) :
    ∀ p ∈ m, scoresOf m p.1 = p.2 := by
  induction m with
  | nil => simp
  | cons q rest ih =>
      obtain ⟨k, v⟩ := q
      intro p hp
      simp only [List.map_cons, List.nodup_cons] at hnd
      rcases List.mem_cons.mp hp with rfl | hp
      · simp [scoresOf]
      · have hne : k ≠ p.1 := by
          intro hcontra
          exact hnd.1 (hcontra ▸ List.mem_map_of_mem Prod.fst hp)
        simpa [scoresOf, hne] using ih hnd.2 p hp

lemma scoresOf_collectRun (cats : List LighthouseCategory) :
    ∀ (m : List (String × List ℚ)) (id : String),
      scoresOf (collectRun m cats) id =
        scoresOf m id ++ (cats.filter (fun c => c.id = id)).map (fun c => c.score) := by
  induction cats with
  | nil => intro m id; simp [collectRun]
  | cons c cs ih =>
      intro m id
      have hstep : collectRun m (c :: cs) = collectRun (addScore m c.id c.score) cs := rfl
      rw [hstep, ih, scoresOf_addScore]
      by_cases h : c.id = id
      · simp [h, List.filter_cons]
      · simp [h, Ne.symm h, List.filter_cons]

lemma keys_nodup_collectRun (cats : List LighthouseCategory) :
    ∀ (m : List (String × List ℚ)), (m.map Prod.fst).Nodup →
      ((collectRun m cats).map Prod.fst).Nodup := by
  induction cats with
  | nil => intro m h; simpa [collectRun] using h
  | cons c cs ih =>
      intro m h
      exact ih (addScore m c.id c.score) (keys_nodup_addScore m c.id c.score h)

lemma values_nonempty_collectRun (cats : List LighthouseCategory) :
    ∀ (m : List (String × List ℚ)), (∀ p ∈ m, p.2 ≠ []) →
      ∀ p ∈ collectRun m cats, p.2 ≠ [] := by
  induction cats with
  | nil => intro m h; simpa [collectRun] using h
  | cons c cs ih =>
      intro m h
      exact ih (addScore m c.id c.score) (values_nonempty_addScore m c.id c.score h)

lemma scoresOf_foldl_runs (rs : List LighthouseResult) :
    ∀ (m : List (String × List ℚ)) (id : String),
      scoresOf (rs.foldl (fun m r => collectRun m r.categories) m) id =
        scoresOf m id ++ allScoresFor id rs := by
  induction rs with
  | nil => intro m id; simp [allScoresFor]
  | cons r rest ih =>
      intro m id
      have hstep : (r :: rest).foldl (fun m r => collectRun m r.categories) m =
          rest.foldl (fun m r => collectRun m r.categories) (collectRun m r.categories) := rfl
      rw [hstep, ih, scoresOf_collectRun, allScoresFor, List.append_assoc]

lemma scoresOf_collectScores (rs : List LighthouseResult) (id : String) :
    scoresOf (collectScores rs) id = allScoresFor id rs := by
  have := scoresOf_foldl_runs rs [] id
  simpa [collectScores, scoresOf] using this

lemma keys_nodup_collectScores (rs : List LighthouseResult) :
    ((collectScores rs).map Prod.fst).Nodup := by
  have haux : ∀ (l : List LighthouseResult) (m : List (String × List ℚ)),
      (m.map Prod.fst).Nodup →
      ((l.foldl (fun m r => collectRun m r.categories) m).map Prod.fst).Nodup := by
    intro l
    induction l with
    | nil => intro m h; simpa using h
    | cons r rest ih =>
        intro m h
        exact ih (collectRun m r.categories) (keys_nodup_collectRun r.categories m h)
  simpa [collectScores] using haux rs [] (by simp)

lemma values_nonempty_collectScores (rs : List LighthouseResult) :
    ∀ p ∈ collectScores rs, p.2 ≠ [] := by
  have haux : ∀ (l : List LighthouseResult) (m : List (String × List ℚ)),
      (∀ p ∈ m, p.2 ≠ []) →
      ∀ p ∈ l.foldl (fun m r => collectRun m r.categories) m, p.2 ≠ [] := by
    intro l
    induction l with
    | nil => intro m h; simpa using h
    | cons r rest ih =>
        intro m h
        exact ih (collectRun m r.categories) (values_nonempty_collectRun r.categories m h)
  simpa [collectScores] using haux rs [] (by simp)

lemma collectScores_entry (rs : List LighthouseResult) :
    ∀ p ∈ collectScores rs, p.2 = allScoresFor p.1 rs := by
  intro p hp
  rw [← scoresOf_collectScores rs p.1,
    scoresOf_entry (collectScores rs) (keys_nodup_collectScores rs) p hp]

lemma mem_keys_collectScores (rs : List LighthouseResult) (id : String) :
    id ∈ (collectScores rs).map Prod.fst ↔ allScoresFor id rs ≠ [] := by
  constructor
  · intro h
    rw [← scoresOf_collectScores rs id]
    exact scoresOf_ne_nil_of_mem_keys _ id (values_nonempty_collectScores rs) h
  · intro h
    exact mem_keys_of_scoresOf_ne_nil _ id (by rwa [scoresOf_collectScores])

/-! ### Helper lemmas: the aggregator -/

lemma mem_averagedCategories (first : LighthouseResult) (rs : List LighthouseResult)
    (c : LighthouseCategory) (hc : c ∈ averagedCategories first rs) :
    allScoresFor c.id rs ≠ [] ∧ c.score = medianOf (allScoresFor c.id rs) := by
  obtain ⟨p, hp, hfp⟩ := List.mem_filterMap.mp hc
  rcases hfind : first.categories.find? (fun fc => fc.id = p.1) with _ | fc
  · rw [hfind] at hfp
    simp at hfp
  · rw [hfind] at hfp
    simp only [Option.some.injEq] at hfp
    have hid : c.id = p.1 := by rw [← hfp]
    have hscore : c.score = medianOf p.2 := by rw [← hfp]
    have hentry := collectScores_entry rs p hp
    have hne := values_nonempty_collectScores rs p hp
    rw [hid, ← hentry]
    exact ⟨hne, hscore⟩

lemma averagedCategories_covers (first : LighthouseResult) (rs : List LighthouseResult)
    (id : String) (hfid : ∃ fc ∈ first.categories, fc.id = id)
    (hne : allScoresFor id rs ≠ []) :
    ∃ c ∈ averagedCategories first rs, c.id = id ∧ c.score = medianOf (allScoresFor id rs) := by
  have hkey : id ∈ (collectScores rs).map Prod.fst :=
    (mem_keys_collectScores rs id).mpr hne
  obtain ⟨p, hp, hp1⟩ := List.mem_map.mp hkey
  have hfind : (first.categories.find? (fun fc => fc.id = p.1)).isSome := by
    rw [List.find?_isSome]
    obtain ⟨fc, hfc, hfcid⟩ := hfid
    exact ⟨fc, hfc, by simp [hfcid, hp1]⟩
  obtain ⟨fc, hfc⟩ := Option.isSome_iff_exists.mp hfind
  refine ⟨⟨p.1, fc.title, medianOf p.2⟩, ?_, ?_, ?_⟩
  · exact List.mem_filterMap.mpr ⟨p, hp, by rw [hfc]⟩
  · exact hp1
  · have hentry := collectScores_entry rs p hp
    rw [hentry, hp1]

lemma medianOf_eq_medianSpec (l : List ℚ) : medianOf l = medianSpec l := by
  unfold medianOf medianSpec jsSortNum
  rcases Nat.mod_two_eq_zero_or_one l.length with h | h
  · simp [List.length_insertionSort, h]
  · simp [List.length_insertionSort, h]

lemma agg_ok_inv (rs : List LighthouseResult) (out : LighthouseResult)
    (h : averageLighthouseResults rs = Except.ok out) :
    (∃ r, rs = [r] ∧ out = r) ∨
      (2 ≤ rs.length ∧ ∃ first rest, rs = first :: rest ∧
        out.categories = averagedCategories first rs) := by
  cases rs with
  | nil => simp [averageLighthouseResults] at h
  | cons r rest =>
      cases rest with
      | nil =>
          left
          refine ⟨r, rfl, ?_⟩
          simpa [averageLighthouseResults] using h.symm
      | cons r2 rest' =>
          right
          refine ⟨by simp [Nat.succ_le_succ, Nat.le_add_left], r, r2 :: rest', rfl, ?_⟩
          have hout : out = ⟨r.url, r.deviceType,
              averagedCategories r (r :: r2 :: rest'), r.reportUrl⟩ := by
            simpa [averageLighthouseResults] using h.symm
          rw [hout]

lemma getD_mem_of_lt (l : List ℚ) (i : Nat) (h : i < l.length) : l.getD i 0 ∈ l := by
  rw [List.getD_eq_getElem?_getD, List.getElem?_eq_getElem h, Option.getD_some]
  exact List.getElem_mem h

lemma median_bounds (l : List ℚ) (hl : l ≠ []) :
    (∀ q, (∀ s ∈ l, q ≤ s) → q ≤ medianOf l) ∧
      (∀ q, (∀ s ∈ l, s ≤ q) → medianOf l ≤ q) := by
  have hperm : (List.insertionSort (· ≤ ·) l).Perm l := List.perm_insertionSort _ l
  have hlen : (List.insertionSort (· ≤ ·) l).length = l.length := hperm.length_eq
  have hpos : 0 < (List.insertionSort (· ≤ ·) l).length := by
    rw [hlen]
    exact List.length_pos.mpr hl
  have hmem : ∀ x ∈ List.insertionSort (· ≤ ·) l, x ∈ l := fun x hx => hperm.mem_iff.mp hx
  unfold medianOf jsSortNum
  by_cases hpar : (List.insertionSort (· ≤ ·) l).length % 2 = 0
  · have h2 : 2 ≤ (List.insertionSort (· ≤ ·) l).length := by omega
    have hi1 : (List.insertionSort (· ≤ ·) l).length / 2 - 1 <
        (List.insertionSort (· ≤ ·) l).length := by omega
    have hi2 : (List.insertionSort (· ≤ ·) l).length / 2 <
        (List.insertionSort (· ≤ ·) l).length := by omega
    have ha := hmem _ (getD_mem_of_lt _ _ hi1)
    have hb := hmem _ (getD_mem_of_lt _ _ hi2)
    constructor
    · intro q hq
      simp only [if_pos hpar]
      have h1 := hq _ ha
      have h2' := hq _ hb
      linarith
    · intro q hq
      simp only [if_pos hpar]
      have h1 := hq _ ha
      have h2' := hq _ hb
      linarith
  · have hi : (List.insertionSort (· ≤ ·) l).length / 2 <
        (List.insertionSort (· ≤ ·) l).length := by omega
    have ha := hmem _ (getD_mem_of_lt _ _ hi)
    constructor
    · intro q hq
      simp only [if_neg hpar]
      exact hq _ ha
    · intro q hq
      simp only [if_neg hpar]
      exact hq _ ha

lemma mem_allScoresFor (id : String) (rs : List LighthouseResult) (s : ℚ)
    (h : s ∈ allScoresFor id rs) :
    ∃ r ∈ rs, ∃ cat ∈ r.categories, cat.id = id ∧ cat.score = s := by
  induction rs with
  | nil => simp [allScoresFor] at h
  | cons r rest ih =>
      simp only [allScoresFor, List.mem_append] at h
      rcases h with h | h
      · obtain ⟨cat, hcat, hcs⟩ := List.mem_map.mp h
        have hfil := List.mem_filter.mp hcat
        exact ⟨r, List.mem_cons_self _ _, cat, hfil.1, by simpa using hfil.2, hcs⟩
      · obtain ⟨r', hr', cat, hcat, hid, hcs⟩ := ih h
        exact ⟨r', List.mem_cons_of_mem _ hr', cat, hcat, hid, hcs⟩

lemma self_mem_allScoresFor (rs : List LighthouseResult) (r : LighthouseResult)
    (hr : r ∈ rs) (cat : LighthouseCategory) (hcat : cat ∈ r.categories) :
    cat.score ∈ allScoresFor cat.id rs := by
  induction rs with
  | nil => simp at hr
  | cons r' rest ih =>
      simp only [allScoresFor, List.mem_append]
      rcases List.mem_cons.mp hr with hr' | hr'
      · left
        subst hr'
        exact List.mem_map_of_mem _ (List.mem_filter.mpr ⟨hcat, by simp⟩)
      · right
        exact ih hr'

/-! ### Claim theorems: the aggregator -/

/-- C1: for every list of runs sharing the same url and deviceType with
length > 1, the aggregated score of each category id present in the first
run equals the median (per the spec's sort-ascending middle-value/average
definition) of all scores collected under that id across the runs. -/
theorem aggregator_median_correct (first : LighthouseResult) (rest : List LighthouseResult)
    (hlen : rest ≠ [])
    (hshare : ∀ r ∈ first :: rest, r.url = first.url ∧ r.deviceType = first.deviceType) :
    ∃ out, averageLighthouseResults (first :: rest) = Except.ok out ∧
      ∀ id, (∃ fc ∈ first.categories, fc.id = id) →
        ∃ c ∈ out.categories, c.id = id ∧
          c.score = medianSpec (allScoresFor id (first :: rest)) := by
  obtain ⟨r2, rest', rfl⟩ : ∃ r2 rest', rest = r2 :: rest' := by
    cases rest with
    | nil => exact absurd rfl hlen
    | cons a b => exact ⟨a, b, rfl⟩
  refine ⟨_, rfl, ?_⟩
  intro id hfid
  have hne : allScoresFor id (first :: r2 :: rest') ≠ [] := by
    obtain ⟨fc, hfc, hfcid⟩ := hfid
    have hmemfil : fc ∈ first.categories.filter (fun c => c.id = id) :=
      List.mem_filter.mpr ⟨hfc, by simp [hfcid]⟩
    intro hcontra
    simp only [allScoresFor] at hcontra
    rcases List.append_eq_nil.mp hcontra with ⟨h1, _⟩
    rw [List.map_eq_nil_iff] at h1
    rw [h1] at hmemfil
    simp at hmemfil
  obtain ⟨c, hc, hcid, hcs⟩ := averagedCategories_covers first _ id hfid hne
  exact ⟨c, hc, hcid, by rw [hcs, medianOf_eq_medianSpec]⟩

/-- Witness for C1: three runs of the same page on mobile with performance
scores 1/10, 9/10, 1/2; the aggregated performance score is the median
1/2. -/
theorem aggregator_median_correct_witness :
    ∃ out, averageLighthouseResults
        [⟨"https://a", "mobile", [⟨"performance", "Performance", 1/10⟩], none⟩,
         ⟨"https://a", "mobile", [⟨"performance", "Performance", 9/10⟩], none⟩,
         ⟨"https://a", "mobile", [⟨"performance", "Performance", 1/2⟩], none⟩] = Except.ok out ∧
      ∀ id, (∃ fc ∈ [LighthouseCategory.mk "performance" "Performance" (1/10)], fc.id = id) →
        ∃ c ∈ out.categories, c.id = id ∧
          c.score = medianSpec (allScoresFor id
            [⟨"https://a", "mobile", [⟨"performance", "Performance", 1/10⟩], none⟩,
             ⟨"https://a", "mobile", [⟨"performance", "Performance", 9/10⟩], none⟩,
             ⟨"https://a", "mobile", [⟨"performance", "Performance", 1/2⟩], none⟩]) :=
  aggregator_median_correct _ _ (by decide) (by decide)

/-- C9: the aggregator fails, with the error thrown as
`'No results to average'`, exactly on the empty run list; every non-empty
list produces a result (the error is the `Except.error` surfaced to the
caller, never swallowed). -/
theorem aggregator_error_iff_empty (rs : List LighthouseResult) :
    (averageLighthouseResults rs = Except.error "No results to average" ↔ rs = []) ∧
      (rs ≠ [] → ∃ out, averageLighthouseResults rs = Except.ok out) := by
  constructor
  · constructor
    · intro h
      cases rs with
      | nil => rfl
      | cons r rest =>
          cases rest with
          | nil => simp [averageLighthouseResults] at h
          | cons r2 rest' => simp [averageLighthouseResults] at h
    · intro h
      rw [h]
      rfl
  · intro h
    cases rs with
    | nil => exact absurd rfl h
    | cons r rest =>
        cases rest with
        | nil => exact ⟨r, rfl⟩
        | cons r2 rest' => exact ⟨_, rfl⟩

/-- Witness for C9: the aggregator errors on `[]` and succeeds on a
concrete one-run list. -/
theorem aggregator_error_iff_empty_witness :
    averageLighthouseResults ([] : List LighthouseResult) =
        Except.error "No results to average" ∧
      ∃ out, averageLighthouseResults
        [⟨"https://a", "mobile", [⟨"performance", "Performance", 1/2⟩], none⟩] =
          Except.ok out :=
  ⟨(aggregator_error_iff_empty []).1.mpr rfl,
    (aggregator_error_iff_empty _).2 (by decide)⟩

/-- C10: every category score of an aggregated result lies between the
minimum and the maximum of that category's collected input scores (stated
as: above every lower bound and below every upper bound of the nonempty
collected-score list); in particular, input scores all in [0, 1] force
aggregated scores into [0, 1]. -/
theorem aggregated_scores_bounded (rs : List LighthouseResult) (out : LighthouseResult)
    (h : averageLighthouseResults rs = Except.ok out) :
    ∀ c ∈ out.categories,
      allScoresFor c.id rs ≠ [] ∧
      (∀ q, (∀ s ∈ allScoresFor c.id rs, q ≤ s) → q ≤ c.score) ∧
      (∀ q, (∀ s ∈ allScoresFor c.id rs, s ≤ q) → c.score ≤ q) ∧
      ((∀ r ∈ rs, ∀ cat ∈ r.categories, 0 ≤ cat.score ∧ cat.score ≤ 1) →
        0 ≤ c.score ∧ c.score ≤ 1) := by
  intro c hc
  have hbounds0 : allScoresFor c.id rs ≠ [] ∧
      (∀ q, (∀ s ∈ allScoresFor c.id rs, q ≤ s) → q ≤ c.score) ∧
      (∀ q, (∀ s ∈ allScoresFor c.id rs, s ≤ q) → c.score ≤ q) := by
    rcases agg_ok_inv rs out h with ⟨r, hrs, hout⟩ | ⟨_, first, rest, hrs, hcats⟩
    · subst hrs
      subst hout
      have hmem : c.score ∈ allScoresFor c.id [out] :=
        self_mem_allScoresFor [out] out (List.mem_cons_self _ _) c hc
      exact ⟨List.ne_nil_of_mem hmem,
        fun q hq => hq _ hmem, fun q hq => hq _ hmem⟩
    · rw [hcats] at hc
      obtain ⟨hne, hmed⟩ := mem_averagedCategories first rs c hc
      obtain ⟨hlo, hhi⟩ := median_bounds _ hne
      exact ⟨hne, fun q hq => hmed ▸ hlo q hq, fun q hq => hmed ▸ hhi q hq⟩
  obtain ⟨hne, hlo, hhi⟩ := hbounds0
  refine ⟨hne, hlo, hhi, fun hin => ?_⟩
  constructor
  · refine hlo 0 (fun s hs => ?_)
    obtain ⟨r, hr, cat, hcat, _, hcs⟩ := mem_allScoresFor _ _ _ hs
    exact hcs ▸ (hin r hr cat hcat).1
  · refine hhi 1 (fun s hs => ?_)
    obtain ⟨r, hr, cat, hcat, _, hcs⟩ := mem_allScoresFor _ _ _ hs
    exact hcs ▸ (hin r hr cat hcat).2

/-- Witness for C10: two runs with performance scores 1/4 and 3/4 aggregate
to their median, which the theorem brackets by the input bounds. -/
theorem aggregated_scores_bounded_witness :
    allScoresFor "performance"
        [⟨"https://a", "mobile", [⟨"performance", "Performance", 1/4⟩], none⟩,
         ⟨"https://a", "mobile", [⟨"performance", "Performance", 3/4⟩], none⟩] ≠ [] ∧
    (∀ q, (∀ s ∈ allScoresFor "performance"
        [⟨"https://a", "mobile", [⟨"performance", "Performance", 1/4⟩], none⟩,
         ⟨"https://a", "mobile", [⟨"performance", "Performance", 3/4⟩], none⟩], q ≤ s) →
      q ≤ medianOf [(1 : ℚ)/4, 3/4]) ∧
    (∀ q, (∀ s ∈ allScoresFor "performance"
        [⟨"https://a", "mobile", [⟨"performance", "Performance", 1/4⟩], none⟩,
         ⟨"https://a", "mobile", [⟨"performance", "Performance", 3/4⟩], none⟩], s ≤ q) →
      medianOf [(1 : ℚ)/4, 3/4] ≤ q) ∧
    ((∀ r ∈ [LighthouseResult.mk "https://a" "mobile"
          [⟨"performance", "Performance", 1/4⟩] none,
        LighthouseResult.mk "https://a" "mobile"
          [⟨"performance", "Performance", 3/4⟩] none],
        ∀ cat ∈ r.categories, 0 ≤ cat.score ∧ cat.score ≤ 1) →
      0 ≤ medianOf [(1 : ℚ)/4, 3/4] ∧ medianOf [(1 : ℚ)/4, 3/4] ≤ 1) :=
  aggregated_scores_bounded
    [⟨"https://a", "mobile", [⟨"performance", "Performance", 1/4⟩], none⟩,
     ⟨"https://a", "mobile", [⟨"performance", "Performance", 3/4⟩], none⟩]
    ⟨"https://a", "mobile", [⟨"performance", "Performance", medianOf [1/4, 3/4]⟩], none⟩
    rfl
    ⟨"performance", "Performance", medianOf [1/4, 3/4]⟩ (List.mem_singleton.mpr rfl)

lemma sorted_eq_of_perm {l l' : List ℚ} (h : l.Perm l') :
    List.insertionSort (· ≤ ·) l = List.insertionSort (· ≤ ·) l' :=
  List.eq_of_perm_of_sorted
    ((List.perm_insertionSort _ l).trans (h.trans (List.perm_insertionSort _ l').symm))
    (List.sorted_insertionSort _ l) (List.sorted_insertionSort _ l')

lemma medianSpec_perm {l l' : List ℚ} (h : l.Perm l') : medianSpec l = medianSpec l' := by
  unfold medianSpec
  rw [sorted_eq_of_perm h]

lemma allScoresFor_perm (id : String) {rs rs' : List LighthouseResult} (h : rs.Perm rs') :
    (allScoresFor id rs).Perm (allScoresFor id rs') := by
  induction h with
  | nil => exact List.Perm.refl _
  | cons x _ ih =>
      simp only [allScoresFor]
      exact List.Perm.append_left _ ih
  | swap x y l =>
      simp only [allScoresFor]
      rw [← List.append_assoc, ← List.append_assoc]
      exact List.perm_append_comm.append_right _
  | trans _ _ ih1 ih2 => exact ih1.trans ih2

lemma eq_of_mem_of_nodup_ids (l : List LighthouseCategory)
    (hnd : (l.map (fun c => c.id)).Nodup) {c c' : LighthouseCategory}
    (hc : c ∈ l) (hc' : c' ∈ l) (hid : c.id = c'.id) : c = c' := by
  induction l with
  | nil => simp at hc
  | cons a rest ih =>
      simp only [List.map_cons, List.nodup_cons] at hnd
      rcases List.mem_cons.mp hc with h1 | h1 <;> rcases List.mem_cons.mp hc' with h2 | h2
      · rw [h1, h2]
      · exfalso
        apply hnd.1
        rw [← h1, hid]
        exact List.mem_map_of_mem _ h2
      · exfalso
        apply hnd.1
        rw [← h2, ← hid]
        exact List.mem_map_of_mem _ h1
      · exact ih hnd.2 h1 h2

/-- C3 (amended): permuting the input runs never changes the aggregated
score of any category id emitted in both outputs (run category ids being
unique within each run, per the data model); the full output record is not
invariant, since title, reportUrl, emitted-id set and category order follow
the first run. -/
theorem aggregator_perm_score_invariant (rs rs' : List LighthouseResult)
    (hperm : rs.Perm rs')
    (hids : ∀ r ∈ rs, (r.categories.map (fun c => c.id)).Nodup)
    (out out' : LighthouseResult)
    (h : averageLighthouseResults rs = Except.ok out)
    (h' : averageLighthouseResults rs' = Except.ok out') :
    ∀ c ∈ out.categories, ∀ c' ∈ out'.categories, c.id = c'.id → c.score = c'.score := by
  intro c hc c' hc' hid
  rcases agg_ok_inv rs out h with ⟨r, hrs, hout⟩ | ⟨hlen, first, rest, hrs, hcats⟩
  · have hrs2 : rs' = [r] := by
      rw [hrs] at hperm
      exact List.perm_singleton.mp hperm.symm
    have hout' : out' = r := by
      rw [hrs2] at h'
      simpa [averageLighthouseResults] using h'.symm
    have hnd : (r.categories.map (fun c => c.id)).Nodup := by
      apply hids
      rw [hrs]
      exact List.mem_cons_self _ _
    rw [hout] at hc
    rw [hout'] at hc'
    rw [eq_of_mem_of_nodup_ids r.categories hnd hc hc' hid]
  · have hlen' : 2 ≤ rs'.length := hperm.length_eq ▸ hlen
    rcases agg_ok_inv rs' out' h' with ⟨r', hrs', _⟩ | ⟨_, first', rest', hrs', hcats'⟩
    · rw [hrs'] at hlen'
      simp at hlen'
    · rw [hcats] at hc
      rw [hcats'] at hc'
      obtain ⟨_, hmed⟩ := mem_averagedCategories first rs c hc
      obtain ⟨_, hmed'⟩ := mem_averagedCategories first' rs' c' hc'
      rw [hmed, hmed', medianOf_eq_medianSpec, medianOf_eq_medianSpec, hid]
      exact medianSpec_perm (allScoresFor_perm c'.id hperm)

/-- Witness for C3's amended theorem: two two-run lists that are
permutations of each other aggregate "performance" to the same score. -/
theorem aggregator_perm_score_invariant_witness :
    (medianOf [(1 : ℚ)/4, 3/4] : ℚ) = medianOf [(3 : ℚ)/4, 1/4] :=
  aggregator_perm_score_invariant
    [⟨"https://a", "mobile", [⟨"performance", "A", 1/4⟩], none⟩,
     ⟨"https://a", "mobile", [⟨"performance", "B", 3/4⟩], none⟩]
    [⟨"https://a", "mobile", [⟨"performance", "B", 3/4⟩], none⟩,
     ⟨"https://a", "mobile", [⟨"performance", "A", 1/4⟩], none⟩]
    (List.Perm.swap _ _ _) (by decide)
    ⟨"https://a", "mobile", [⟨"performance", "A", medianOf [1/4, 3/4]⟩], none⟩
    ⟨"https://a", "mobile", [⟨"performance", "B", medianOf [3/4, 1/4]⟩], none⟩
    rfl rfl
    ⟨"performance", "A", medianOf [1/4, 3/4]⟩ (List.mem_singleton.mpr rfl)
    ⟨"performance", "B", medianOf [3/4, 1/4]⟩ (List.mem_singleton.mpr rfl)
    rfl

/-- Counterexample to C3 as stated: swapping two runs of the same page
changes the aggregated result (the emitted title follows whichever run is
first), so the output is not identical under permutation. -/
theorem aggregator_not_permutation_invariant :
    ([(⟨"https://e", "mobile", [⟨"performance", "Performance", 1/4⟩], none⟩ : LighthouseResult),
      ⟨"https://e", "mobile", [⟨"performance", "Perf", 3/4⟩], none⟩] : List LighthouseResult).Perm
      [⟨"https://e", "mobile", [⟨"performance", "Perf", 3/4⟩], none⟩,
       ⟨"https://e", "mobile", [⟨"performance", "Performance", 1/4⟩], none⟩] ∧
    (averageLighthouseResults
        [⟨"https://e", "mobile", [⟨"performance", "Performance", 1/4⟩], none⟩,
         ⟨"https://e", "mobile", [⟨"performance", "Perf", 3/4⟩], none⟩]).toOption.map
      (fun o => o.categories.map (fun c => c.title)) = some ["Performance"] ∧
    (averageLighthouseResults
        [⟨"https://e", "mobile", [⟨"performance", "Perf", 3/4⟩], none⟩,
         ⟨"https://e", "mobile", [⟨"performance", "Performance", 1/4⟩], none⟩]).toOption.map
      (fun o => o.categories.map (fun c => c.title)) = some ["Perf"] ∧
    averageLighthouseResults
        [⟨"https://e", "mobile", [⟨"performance", "Performance", 1/4⟩], none⟩,
         ⟨"https://e", "mobile", [⟨"performance", "Perf", 3/4⟩], none⟩] ≠
      averageLighthouseResults
        [⟨"https://e", "mobile", [⟨"performance", "Perf", 3/4⟩], none⟩,
         ⟨"https://e", "mobile", [⟨"performance", "Performance", 1/4⟩], none⟩] := by
  refine ⟨List.Perm.swap _ _ _, rfl, rfl, ?_⟩
  intro hcontra
  have htitles := congrArg
    (fun e => (Except.toOption e).map (fun o => o.categories.map (fun c => c.title))) hcontra
  have h1 : (some ["Performance"] : Option (List String)) = some ["Perf"] := htitles
  simp at h1

/-! ### Helper lemmas: the summary builder -/

lemma dedup_foldl_nodup (l : List String) :
    ∀ acc : List String, acc.Nodup →
      (l.foldl (fun acc x => if x ∈ acc then acc else acc ++ [x]) acc).Nodup := by
  induction l with
  | nil => intro acc h; simpa using h
  | cons x xs ih =>
      intro acc h
      simp only [List.foldl_cons]
      by_cases hx : x ∈ acc
      · rw [if_pos hx]
        exact ih acc h
      · rw [if_neg hx]
        exact ih _ (List.Nodup.append h (List.nodup_singleton x) (by simpa using hx))

lemma dedup_foldl_mem (l : List String) :
    ∀ (acc : List String) (y : String),
      y ∈ l.foldl (fun acc x => if x ∈ acc then acc else acc ++ [x]) acc ↔
        y ∈ acc ∨ y ∈ l := by
  induction l with
  | nil => intro acc y; simp
  | cons x xs ih =>
      intro acc y
      simp only [List.foldl_cons]
      by_cases hx : x ∈ acc
      · rw [if_pos hx, ih]
        constructor
        · rintro (h | h)
          · exact Or.inl h
          · exact Or.inr (List.mem_cons_of_mem _ h)
        · rintro (h | h)
          · exact Or.inl h
          · rcases List.mem_cons.mp h with h | h
            · exact Or.inl (h ▸ hx)
            · exact Or.inr h
      · rw [if_neg hx, ih]
        simp only [List.mem_append, List.mem_singleton, List.mem_cons]
        tauto

lemma jsSetDedup_nodup (l : List String) : (jsSetDedup l).Nodup :=
  dedup_foldl_nodup l [] List.nodup_nil

lemma mem_jsSetDedup (l : List String) (y : String) : y ∈ jsSetDedup l ↔ y ∈ l := by
  unfold jsSetDedup
  rw [dedup_foldl_mem]
  simp

lemma jsSetDedup_length (l : List String) : (jsSetDedup l).length = l.toFinset.card := by
  have hfs : (jsSetDedup l).toFinset = l.toFinset := by
    ext y
    simp [List.mem_toFinset, mem_jsSetDedup]
  rw [← hfs, List.toFinset_card_of_nodup (jsSetDedup_nodup l)]

/-! ### Claim theorems: the summary builder -/

/-- C7: for every list of canonical results, the summary has `totalUrls`
equal to the number of distinct urls, `totalTests` equal to the list
length, and every `averageScores` entry equal to the arithmetic mean of
all scores observed under that id, rounded to two decimal places
(`Math.round(x * 100) / 100`); every id with at least one observed score
gets an entry. -/
theorem summary_builder_correct (rs : List LighthouseResult) :
    (formatLighthouseResults rs).summary.totalUrls = (rs.map (fun r => r.url)).toFinset.card ∧
    (formatLighthouseResults rs).summary.totalTests = rs.length ∧
    (∀ p ∈ (formatLighthouseResults rs).summary.averageScores,
      allScoresFor p.1 rs ≠ [] ∧
      p.2 = roundTwoDecimals (qSum (allScoresFor p.1 rs) / (allScoresFor p.1 rs).length)) ∧
    (∀ id, allScoresFor id rs ≠ [] →
      id ∈ ((formatLighthouseResults rs).summary.averageScores.map Prod.fst)) := by
  refine ⟨?_, rfl, ?_, ?_⟩
  · show (jsSetDedup (rs.map (fun r => r.url))).length = _
    exact jsSetDedup_length _
  · intro p hp
    obtain ⟨q, hq, hqp⟩ := List.mem_map.mp hp
    have hentry := collectScores_entry rs q hq
    have hne := values_nonempty_collectScores rs q hq
    constructor
    · rw [← hqp]
      simpa [← hentry] using hne
    · rw [← hqp]
      simp only
      rw [← hentry]
  · intro id hne
    have hkey : id ∈ (collectScores rs).map Prod.fst :=
      (mem_keys_collectScores rs id).mpr hne
    show id ∈ ((calculateAverageScores rs).map Prod.fst)
    unfold calculateAverageScores
    rw [List.map_map]
    simpa using hkey

/-- Witness for C7: a two-run result set over one URL; the summary counts
one distinct URL, two tests, and averages performance to the rounded
mean. -/
theorem summary_builder_correct_witness :
    (formatLighthouseResults
        [⟨"https://a", "mobile", [⟨"performance", "P", 1/4⟩], none⟩,
         ⟨"https://a", "desktop", [⟨"performance", "P", 3/4⟩], none⟩]).summary.totalUrls =
      (([⟨"https://a", "mobile", [⟨"performance", "P", 1/4⟩], none⟩,
         ⟨"https://a", "desktop", [⟨"performance", "P", 3/4⟩], none⟩] :
          List LighthouseResult).map (fun r => r.url)).toFinset.card ∧
    (formatLighthouseResults
        [⟨"https://a", "mobile", [⟨"performance", "P", 1/4⟩], none⟩,
         ⟨"https://a", "desktop", [⟨"performance", "P", 3/4⟩], none⟩]).summary.totalTests =
      ([⟨"https://a", "mobile", [⟨"performance", "P", 1/4⟩], none⟩,
        ⟨"https://a", "desktop", [⟨"performance", "P", 3/4⟩], none⟩] :
         List LighthouseResult).length ∧
    (∀ p ∈ (formatLighthouseResults
        [⟨"https://a", "mobile", [⟨"performance", "P", 1/4⟩], none⟩,
         ⟨"https://a", "desktop", [⟨"performance", "P", 3/4⟩], none⟩]).summary.averageScores,
      allScoresFor p.1
          [⟨"https://a", "mobile", [⟨"performance", "P", 1/4⟩], none⟩,
           ⟨"https://a", "desktop", [⟨"performance", "P", 3/4⟩], none⟩] ≠ [] ∧
      p.2 = roundTwoDecimals (qSum (allScoresFor p.1
          [⟨"https://a", "mobile", [⟨"performance", "P", 1/4⟩], none⟩,
           ⟨"https://a", "desktop", [⟨"performance", "P", 3/4⟩], none⟩]) /
        (allScoresFor p.1
          [⟨"https://a", "mobile", [⟨"performance", "P", 1/4⟩], none⟩,
           ⟨"https://a", "desktop", [⟨"performance", "P", 3/4⟩], none⟩]).length)) ∧
    (∀ id, allScoresFor id
        [⟨"https://a", "mobile", [⟨"performance", "P", 1/4⟩], none⟩,
         ⟨"https://a", "desktop", [⟨"performance", "P", 3/4⟩], none⟩] ≠ [] →
      id ∈ ((formatLighthouseResults
        [⟨"https://a", "mobile", [⟨"performance", "P", 1/4⟩], none⟩,
         ⟨"https://a", "desktop", [⟨"performance", "P", 3/4⟩], none⟩]).summary.averageScores.map
          Prod.fst)) :=
  summary_builder_correct _

/-- C8: the summary builder does not fail on an empty result list: it
returns zero counts and empty mappings. -/
theorem summary_builder_empty :
    formatLighthouseResults [] =
      ⟨[], ⟨0, 0, [], [], [], [], []⟩⟩ := rfl

/-! ### Helper lemmas: the renderer -/

lemma formatPercentage_zero : formatPercentage 0 = "0%" := by
  unfold formatPercentage jsRound
  have h1 : ((0 : ℚ) * 100 + 1 / 2) = 1 / 2 := by norm_num
  have h2 : ⌊(1 / 2 : ℚ)⌋ = 0 := by
    rw [Int.floor_eq_iff]
    constructor <;> norm_num
  rw [h1, h2]
  rfl

/-- Counterexample to C2 as stated: a category with no recorded score
(here `performance`, absent from both score records) renders as the
numeric text `0%` when mobile tests are shown, not as an `N/A` / `-`
placeholder. -/
theorem missing_category_renders_zero_percent :
    lookupQ [] "performance" = none ∧
    scoreCellText [] [] true false "performance" = "0%" := by
  refine ⟨rfl, ?_⟩
  unfold scoreCellText lookupQ
  simpa using formatPercentage_zero

/-- C2 (amended): a category with no recorded score for a URL renders as a
fabricated zero — `0%` (or `0%/0%` when both device types are shown); the
`N/A` placeholder appears only when neither mobile nor desktop tests are
being shown at all. -/
theorem missing_category_cell (ms ds : List (String × ℚ)) (hm hd : Bool) (cat : String)
    (h1 : lookupQ ms cat = none) (h2 : lookupQ ds cat = none) :
    scoreCellText ms ds hm hd cat =
      if hm && hd then "0%/0%" else if hm || hd then "0%" else "N/A" := by
  unfold scoreCellText
  rw [h1, h2]
  cases hm <;> cases hd <;> simp [formatPercentage_zero]

/-- Witness for C2's amended theorem: with both devices shown and the
category absent from both records, the cell is `0%/0%`. -/
theorem missing_category_cell_witness :
    lookupQ [("seo", 1/2)] "performance" = none ∧
    lookupQ [] "performance" = none ∧
    scoreCellText [("seo", 1/2)] [] true true "performance" =
      if (true && true : Bool) then "0%/0%" else if (true || true : Bool) then "0%" else "N/A" :=
  ⟨rfl, rfl, missing_category_cell [("seo", 1/2)] [] true true "performance" rfl rfl⟩

/-- Buckets of a list by an integer key, in the order the key values are
listed: the shape of a stable sort by that key. -/
def bucketsFrom (key : String → ℤ) (l : List String) : List ℤ → List String
  | [] => []
  | v :: vs => l.filter (fun c => key c = v) ++ bucketsFrom key l vs

lemma mem_bucketsFrom (key : String → ℤ) (l : List String) (vs : List ℤ) (x : String)
    (h : x ∈ bucketsFrom key l vs) : key x ∈ vs := by
  induction vs with
  | nil => simp [bucketsFrom] at h
  | cons v vs ih =>
      simp only [bucketsFrom, List.mem_append] at h
      rcases h with h | h
      · have := List.mem_filter.mp h
        simp only [decide_eq_true_eq] at this
        simp [this.2]
      · simp [ih h]

lemma bucketsFrom_cons_of_not_mem (key : String → ℤ) (c : String) (l : List String)
    (vs : List ℤ) (h : key c ∉ vs) :
    bucketsFrom key (c :: l) vs = bucketsFrom key l vs := by
  induction vs with
  | nil => rfl
  | cons v vs ih =>
      have hne : ¬ (key c = v) := fun hcontra => h (by simp [hcontra])
      simp only [bucketsFrom, List.filter_cons]
      rw [ih (fun hcontra => h (List.mem_cons_of_mem _ hcontra))]
      simp [hne]

lemma orderedInsert_front (key : String → ℤ) (c : String) (L : List String)
    (h : ∀ x ∈ L, key c ≤ key x) :
    List.orderedInsert (fun a b => key a ≤ key b) c L = c :: L := by
  cases L with
  | nil => rfl
  | cons x xs =>
      simp only [List.orderedInsert]
      rw [if_pos (h x (List.mem_cons_self _ _))]

lemma orderedInsert_skip (key : String → ℤ) (c : String) (xs ys : List String)
    (h : ∀ x ∈ xs, ¬ key c ≤ key x) :
    List.orderedInsert (fun a b => key a ≤ key b) c (xs ++ ys) =
      xs ++ List.orderedInsert (fun a b => key a ≤ key b) c ys := by
  induction xs with
  | nil => rfl
  | cons x xs ih =>
      simp only [List.cons_append, List.orderedInsert]
      rw [if_neg (h x (List.mem_cons_self _ _))]
      simp only [List.append_eq]
      rw [ih (fun y hy => h y (List.mem_cons_of_mem _ hy))]

lemma orderedInsert_bucketsFrom (key : String → ℤ) (vs : List ℤ)
    (hvs : vs.Pairwise (· < ·)) (c : String) (hc : key c ∈ vs) (l : List String) :
    List.orderedInsert (fun a b => key a ≤ key b) c (bucketsFrom key l vs) =
      bucketsFrom key (c :: l) vs := by
  induction vs with
  | nil => simp at hc
  | cons v vs ih =>
      simp only [bucketsFrom]
      rcases List.mem_cons.mp hc with hv | hv
      · have hfil : (c :: l).filter (fun x => key x = v) =
            c :: l.filter (fun x => key x = v) := by
          simp [List.filter_cons, hv]
        have hnotmem : key c ∉ vs := by
          intro hmem
          have := (List.pairwise_cons.mp hvs).1 _ hmem
          omega
        have hothers : bucketsFrom key (c :: l) vs = bucketsFrom key l vs :=
          bucketsFrom_cons_of_not_mem key c l vs hnotmem
        rw [hfil, hothers, List.cons_append]
        apply orderedInsert_front
        intro x hx
        rcases List.mem_append.mp hx with hx | hx
        · have := List.mem_filter.mp hx
          simp only [decide_eq_true_eq] at this
          omega
        · have := mem_bucketsFrom key l vs x hx
          have := (List.pairwise_cons.mp hvs).1 _ this
          omega
      · have hvlt : v < key c := (List.pairwise_cons.mp hvs).1 _ hv
        have hfil : (c :: l).filter (fun x => key x = v) =
            l.filter (fun x => key x = v) := by
          have : ¬ (key c = v) := by omega
          simp [List.filter_cons, this]
        rw [orderedInsert_skip key c _ _ ?_, ih (List.pairwise_cons.mp hvs).2 hv, hfil]
        intro x hx
        have := List.mem_filter.mp hx
        simp only [decide_eq_true_eq] at this
        omega

lemma categoryOrderIndex_mem (c : String) :
    categoryOrderIndex c ∈ ([-1, 0, 1, 2, 3] : List ℤ) := by
  unfold categoryOrderIndex
  split_ifs <;> simp

/-- C4 (amended): the rendered category order is the stable sort by
`order.indexOf`, so ids NOT in the preferred list (index `-1`) come
FIRST, keeping their first-appearance order (not alphabetical order), and
are followed by `performance`, `seo`, `accessibility`, `best-practices`
in that order. -/
theorem category_sort_buckets (l : List String) :
    sortCategories l =
      l.filter (fun c => categoryOrderIndex c = -1) ++
      l.filter (fun c => categoryOrderIndex c = 0) ++
      l.filter (fun c => categoryOrderIndex c = 1) ++
      l.filter (fun c => categoryOrderIndex c = 2) ++
      l.filter (fun c => categoryOrderIndex c = 3) := by
  have h : sortCategories l = bucketsFrom categoryOrderIndex l [-1, 0, 1, 2, 3] := by
    induction l with
    | nil => simp [sortCategories, bucketsFrom]
    | cons c cs ih =>
        show List.orderedInsert _ c (sortCategories cs) = _
        rw [ih]
        exact orderedInsert_bucketsFrom categoryOrderIndex _ (by decide) c
          (categoryOrderIndex_mem c) cs
  rw [h]
  simp [bucketsFrom, List.append_assoc]

/-- Counterexample to C4 as stated: the unknown id `pwa` sorts BEFORE the
preferred-order id `performance`, not after the prefix list; and two
unknown ids (`zeta`, `alpha`) keep their first-appearance order instead of
being reordered alphabetically. -/
theorem category_sort_unknown_first :
    sortCategories ["pwa", "performance"] = ["pwa", "performance"] ∧
    sortCategories ["pwa", "performance"] ≠ ["performance", "pwa"] ∧
    sortCategories ["zeta", "alpha", "performance"] = ["zeta", "alpha", "performance"] ∧
    sortCategories ["zeta", "alpha", "performance"] ≠ ["performance", "alpha", "zeta"] := by
  refine ⟨rfl, by decide, rfl, by decide⟩

/-- C5: the per-URL row loop keeps a running size counter starting from the
already-emitted blocks; rows are emitted exactly while the running total
stays within the 3000-character ceiling, and at the first row that would
exceed it the loop stops, emits exactly one truncation warning, and keeps
every block emitted before that point unchanged. -/
theorem truncation_loop_correct (size : SlackBlock → Nat) (current : Nat)
    (rows : List SlackBlock) :
    ∃ n, n ≤ rows.length ∧
      emitUrlRows size current rows =
        rows.take n ++ (if n = rows.length then [] else [truncationWarning]) ∧
      (∀ i, i < n →
        current + ((rows.take (i + 1)).map size).sum ≤ SLACK_MESSAGE_CHAR_LIMIT) ∧
      (n < rows.length →
        SLACK_MESSAGE_CHAR_LIMIT <
          current + ((rows.take n).map size).sum + size (rows.getD n .divider)) := by
  induction rows generalizing current with
  | nil =>
      refine ⟨0, Nat.le_refl 0, by simp [emitUrlRows], ?_, ?_⟩
      · intro i hi
        exact absurd hi (Nat.not_lt_zero i)
      · intro h
        exact absurd h (lt_irrefl 0)
  | cons b rest ih =>
      by_cases hb : SLACK_MESSAGE_CHAR_LIMIT < current + size b
      · refine ⟨0, Nat.zero_le _, ?_, ?_, ?_⟩
        · simp [emitUrlRows, hb]
        · intro i hi
          exact absurd hi (Nat.not_lt_zero i)
        · intro _
          simpa using hb
      · push_neg at hb
        obtain ⟨n, hn, heq, hbound, hover⟩ := ih (current + size b)
        refine ⟨n + 1, Nat.succ_le_succ hn, ?_, ?_, ?_⟩
        · show (if SLACK_MESSAGE_CHAR_LIMIT < current + size b then [truncationWarning]
            else b :: emitUrlRows size (current + size b) rest) = _
          rw [if_neg (not_lt.mpr hb), heq, List.take_succ_cons, List.cons_append]
          by_cases hcase : n = rest.length
          · simp [hcase]
          · simp [hcase, List.length_cons]
        · intro i hi
          cases i with
          | zero => simpa using hb
          | succ j =>
              have hj := hbound j (Nat.lt_of_succ_lt_succ hi)
              rw [List.take_succ_cons, List.map_cons, List.sum_cons]
              omega
        · intro hlt
          have h := hover (Nat.lt_of_succ_lt_succ (by simpa using hlt))
          rw [List.take_succ_cons, List.map_cons, List.sum_cons, List.getD_cons_succ]
          omega

/-- Witness for C5: with two rows of serialized size 2000 each on top of
500 characters already emitted, the loop emits the first row and then the
truncation warning. -/
theorem truncation_loop_correct_witness :
    ∃ n, n ≤ ([SlackBlock.divider, SlackBlock.divider] : List SlackBlock).length ∧
      emitUrlRows (fun _ => 2000) 500 [SlackBlock.divider, SlackBlock.divider] =
        ([SlackBlock.divider, SlackBlock.divider].take n ++
          (if n = ([SlackBlock.divider, SlackBlock.divider] : List SlackBlock).length
            then [] else [truncationWarning])) ∧
      (∀ i, i < n →
        500 + (([SlackBlock.divider, SlackBlock.divider].take (i + 1)).map
          (fun _ => 2000)).sum ≤ SLACK_MESSAGE_CHAR_LIMIT) ∧
      (n < ([SlackBlock.divider, SlackBlock.divider] : List SlackBlock).length →
        SLACK_MESSAGE_CHAR_LIMIT <
          500 + (([SlackBlock.divider, SlackBlock.divider].take n).map
            (fun _ => 2000)).sum +
            (fun _ => 2000) ([SlackBlock.divider, SlackBlock.divider].getD n .divider)) :=
  truncation_loop_correct (fun _ => 2000) 500 [SlackBlock.divider, SlackBlock.divider]

lemma gapLoop_gap (desktop : List (String × ℚ)) :
    ∀ (mobile : List (String × ℚ)) (acc : String × ℚ × ℚ × ℚ),
      (gapLoop desktop mobile acc).2.1 = (deviceGaps mobile desktop).foldl max acc.2.1 := by
  intro mobile
  induction mobile with
  | nil => intro acc; rfl
  | cons p rest ih =>
      intro acc
      show (gapLoop desktop rest _).2.1 = _
      rw [ih]
      have hmax : (if acc.2.1 < |p.2 - (lookupQ desktop p.1).getD 0| then
          (p.1, |p.2 - (lookupQ desktop p.1).getD 0|, p.2, (lookupQ desktop p.1).getD 0)
          else acc).2.1 = max acc.2.1 (|p.2 - (lookupQ desktop p.1).getD 0|) := by
        by_cases h : acc.2.1 < |p.2 - (lookupQ desktop p.1).getD 0|
        · rw [if_pos h]
          exact (max_eq_right (le_of_lt h)).symm
        · rw [if_neg h]
          exact (max_eq_left (not_lt.mp h)).symm
      rw [hmax]
      rfl

lemma gapLoop_result (desktop : List (String × ℚ)) :
    ∀ (mobile : List (String × ℚ)) (acc : String × ℚ × ℚ × ℚ),
      gapLoop desktop mobile acc = acc ∨
        ∃ p ∈ mobile, (gapLoop desktop mobile acc).1 = p.1 := by
  intro mobile
  induction mobile with
  | nil => intro acc; exact Or.inl rfl
  | cons p rest ih =>
      intro acc
      have hstep : gapLoop desktop (p :: rest) acc =
          gapLoop desktop rest
            (if acc.2.1 < |p.2 - (lookupQ desktop p.1).getD 0| then
              (p.1, |p.2 - (lookupQ desktop p.1).getD 0|, p.2, (lookupQ desktop p.1).getD 0)
            else acc) := rfl
      by_cases h : acc.2.1 < |p.2 - (lookupQ desktop p.1).getD 0|
      · rw [hstep, if_pos h]
        rcases ih (p.1, |p.2 - (lookupQ desktop p.1).getD 0|, p.2,
            (lookupQ desktop p.1).getD 0) with hacc | ⟨q, hq, hq1⟩
        · right
          exact ⟨p, List.mem_cons_self _ _, by rw [hacc]⟩
        · right
          exact ⟨q, List.mem_cons_of_mem _ hq, hq1⟩
      · rw [hstep, if_neg h]
        rcases ih acc with hacc | ⟨q, hq, hq1⟩
        · left
          exact hacc
        · right
          exact ⟨q, List.mem_cons_of_mem _ hq, hq1⟩

/-- C6 (amended): the device-gap scan runs over every category of the
MOBILE average-score record, a category missing from the desktop record
contributing a desktop value of `0` (it is not restricted to categories
present in both); given nonempty category ids, the bullet is emitted
exactly when the largest such absolute gap strictly exceeds `0.10`, and
the emitted gap equals that maximum. -/
theorem device_gap_characterization (mobile desktop : List (String × ℚ))
    (hne : ∀ p ∈ mobile, p.1 ≠ "") :
    ((gapInsight mobile desktop).isSome = true ↔
      (1 / 10 : ℚ) < (deviceGaps mobile desktop).foldl max 0) ∧
    (∀ c g b, gapInsight mobile desktop = some (c, g, b) →
      g = (deviceGaps mobile desktop).foldl max 0 ∧ ∃ p ∈ mobile, p.1 = c) := by
  have hgap : (findBiggestGap mobile desktop).2.1 =
      (deviceGaps mobile desktop).foldl max 0 := gapLoop_gap desktop mobile _
  have hres := gapLoop_result desktop mobile ("", 0, 0, 0)
  constructor
  · constructor
    · intro hs
      simp only [gapInsight] at hs
      by_cases hcond : (findBiggestGap mobile desktop).1 ≠ "" ∧
          (1 / 10 : ℚ) < (findBiggestGap mobile desktop).2.1
      · exact hgap ▸ hcond.2
      · rw [if_neg hcond] at hs
        simp at hs
    · intro hlt
      have hfb : (1 / 10 : ℚ) < (findBiggestGap mobile desktop).2.1 := by
        rw [hgap]
        exact hlt
      have hcat : (findBiggestGap mobile desktop).1 ≠ "" := by
        rcases hres with hacc | ⟨p, hp, hp1⟩
        · exfalso
          have h0 : (findBiggestGap mobile desktop).2.1 = 0 := by
            show (gapLoop desktop mobile ("", 0, 0, 0)).2.1 = 0
            rw [hacc]
          rw [h0] at hfb
          linarith
        · show (gapLoop desktop mobile ("", 0, 0, 0)).1 ≠ ""
          rw [hp1]
          exact hne p hp
      simp only [gapInsight]
      rw [if_pos ⟨hcat, hfb⟩]
      rfl
  · intro c g b hsome
    simp only [gapInsight] at hsome
    by_cases hcond : (findBiggestGap mobile desktop).1 ≠ "" ∧
        (1 / 10 : ℚ) < (findBiggestGap mobile desktop).2.1
    · rw [if_pos hcond] at hsome
      have hc : (findBiggestGap mobile desktop).1 = c := congrArg (fun o => (o.getD ("", 0, "")).1) hsome
      have hg : (findBiggestGap mobile desktop).2.1 = g := by
        have := congrArg (fun o => (o.getD ("", 0, "")).2.1) hsome
        simpa using this
      constructor
      · rw [← hg, hgap]
      · rcases hres with hacc | ⟨p, hp, hp1⟩
        · exfalso
          have h0 : (findBiggestGap mobile desktop).2.1 = 0 := by
            rw [show findBiggestGap mobile desktop = gapLoop desktop mobile ("", 0, 0, 0)
              from rfl, hacc]
          rw [h0] at hcond
          linarith [hcond.2]
        · refine ⟨p, hp, ?_⟩
          rw [← hc, show findBiggestGap mobile desktop = gapLoop desktop mobile ("", 0, 0, 0)
            from rfl, hp1]
    · rw [if_neg hcond] at hsome
      simp at hsome

/-- Counterexample to C6 as stated: with mobile `{performance: 0.9}` and
desktop `{seo: 0.9}` there is NO category present in both mappings, yet
the code emits a device-gap bullet (performance's missing desktop value is
read as 0, giving a 0.9 gap). -/
theorem device_gap_counterexample :
    sharedCategoryIds [("performance", 9/10)] [("seo", 9/10)] = [] ∧
    (gapInsight [("performance", 9/10)] [("seo", 9/10)]).isSome = true := by
  constructor
  · rfl
  · have habs : |(9/10 : ℚ) - 0| = 9/10 := by
      rw [sub_zero]
      exact abs_of_pos (by norm_num)
    have hlk : lookupQ [(("seo" : String), (9/10 : ℚ))] "performance" = none := rfl
    norm_num [gapInsight, findBiggestGap, gapLoop, hlk, habs]
    refine ⟨by decide, ?_⟩
    rw [abs_of_pos (by norm_num : (0 : ℚ) < 9 / 10)]
    norm_num

/-- Witness for C6's amended theorem: a 0.5 performance gap (mobile 1,
desktop 0.5) satisfies the characterization. -/
theorem device_gap_characterization_witness :
    ((gapInsight [("performance", 1)] [("performance", 1/2)]).isSome = true ↔
      (1 / 10 : ℚ) < (deviceGaps [("performance", 1)] [("performance", 1/2)]).foldl max 0) ∧
    (∀ c g b, gapInsight [("performance", 1)] [("performance", 1/2)] = some (c, g, b) →
      g = (deviceGaps [("performance", 1)] [("performance", 1/2)]).foldl max 0 ∧
        ∃ p ∈ [(("performance" : String), (1 : ℚ))], p.1 = c) :=
  device_gap_characterization _ _ (by decide)

end LHCI
